import Mathlib

/-!
# Verification of the X profile post scraper core

A shallow embedding of the content-script scraper (`XProfileScraper`) of this
repository, together with proofs about its deduplication, ordering, parsing
and scroll-loop logic.

Modelling conventions:
* JavaScript strings are Lean `String`s; character-level operations work on
  `String.data` (the underlying `List Char`).  `charCodeAt` is modelled as the
  code point (`Char.toNat`), which agrees with the UTF-16 code unit for all
  characters below `0x10000`.
* JavaScript 32-bit integer coercion (`x & x`, `<<`) is modelled by `toInt32`.
* A JavaScript number that may be `NaN` is modelled as an `Option`; `none`
  stands for `NaN`.
* `parseFloat` is modelled with exact rationals; on the character sets
  reachable here the floating-point and rational results agree on every value
  the specification mentions.
* Host `Date` values are modelled by `JsDateVal`: `null`, a valid date with an
  epoch-milliseconds value, or an invalid date (`new Date(junk)`), which is a
  *truthy* object whose arithmetic yields `NaN`.
* `Array.prototype.sort` is modelled by a stable insertion sort (`jsSort`).
  The ECMAScript specification requires sort to be stable and leaves the
  result order implementation-defined when the comparator is inconsistent;
  `jsSort` is one conforming implementation.
* The scroll-drive loop is modelled as a step function over a per-pass
  environment (`PassEnv`) describing what the page did during that pass:
  which records were extractable, whether scrolling succeeded, the wall
  clock, rate-limit signals and externally arriving stop requests.
-/

/-- Two's-complement wrap of an integer into the signed 32-bit range,
modelling JavaScript `ToInt32` (the `hash = hash & hash` coercion). -/
def toInt32 (n : ℤ) : ℤ :=
  ((n + 2 ^ 31) % 2 ^ 32) - 2 ^ 31

/-- Model of `simpleHash` from the content script: the classic `(h << 5) - h + c`
loop over the characters, coerced to a signed 32-bit integer each step,
then `Math.abs(hash).toString()`. -/
def simpleHash (str : String) : String :=
  let h := str.data.foldl
    (fun hash ch => toInt32 (toInt32 (hash * 32) - hash + (ch.toNat : ℤ))) 0
  (Int.natAbs h).repr

/-- One media item extracted from a post node (`extractMediaInfo` pushes
image entries with `url`/`alt` and video entries with `url`/`poster`). -/
inductive MediaItem where
  | image (url alt : String)
  | video (url poster : String)
  deriving DecidableEq, Repr

/-- The `metadata` object produced by `extractPostMetadata`. -/
structure PostMetadata where
  isRetweet : Bool
  isReply : Bool
  hasThread : Bool
  language : String
  verified : Bool
  deriving DecidableEq, Repr

/-- Engagement metrics from `extractEngagementMetrics`; each field is a
JavaScript number that can be `NaN` (modelled `none`) because `parseCount`
can return `NaN`. -/
structure Metrics where
  replies : Option ℤ := some 0
  retweets : Option ℤ := some 0
  likes : Option ℤ := some 0
  views : Option ℤ := some 0
  deriving DecidableEq, Repr

/-- The post record built by `extractPostData`.  `finalOrder` is absent
(`none`) until `sortAndOrderPosts` assigns it. -/
structure Post where
  id : String
  order : ℕ
  text : String
  author : String
  timestamp : String
  url : String
  metrics : Metrics
  media : List MediaItem
  metadata : PostMetadata
  scrapedAt : String
  scrollPosition : ℕ
  finalOrder : Option ℕ := none
  deriving DecidableEq, Repr

/-- Model of `createContentHash`: hash of `text|timestamp|author`. -/
def createContentHash (post : Post) : String :=
  simpleHash (post.text ++ "|" ++ post.timestamp ++ "|" ++ post.author)

/-- The recursion of `removeDuplicatePosts`, with the JavaScript `Set`
of already seen keys made explicit: a post is kept only when neither its
`id` nor its content hash is in the set, and both keys are then added. -/
def removeDupAux (seen : List String) : List Post → List Post
  | [] => []
  | post :: rest =>
    let contentHash := createContentHash post
    if post.id ∉ seen ∧ contentHash ∉ seen then
      post :: removeDupAux (contentHash :: post.id :: seen) rest
    else
      removeDupAux seen rest

/-- Model of `removeDuplicatePosts`: the finalizer's defensive deduplication pass. -/
def removeDuplicatePosts (posts : List Post) : List Post :=
  removeDupAux [] posts

/-- The double key the deduplication pass enforces: distinct identities and
distinct content hashes. -/
def DistinctKeys (a b : Post) : Prop :=
  a.id ≠ b.id ∧ createContentHash a ≠ createContentHash b

instance : DecidablePred fun p : Post × Post => DistinctKeys p.1 p.2 := by
  intro p
  unfold DistinctKeys
  infer_instance

/-- Stable insertion step modelling one conforming behaviour of
`Array.prototype.sort`: `x` is inserted before the first element `y` whose
comparator verdict does not place `y` strictly before `x`. -/
def jsOrderedInsert {α : Type} (c : α → α → ℤ) (x : α) : List α → List α
  | [] => [x]
  | y :: ys => if c y x < 0 then y :: jsOrderedInsert c x ys else x :: y :: ys

/-- Model of `Array.prototype.sort(comparator)`: a stable sort.  The
ECMAScript specification requires stability and, for an inconsistent
comparator, leaves the result order implementation-defined; this insertion
sort is one conforming implementation.  The comparator result has already
been passed through `SortCompare`, which maps `NaN` to `+0`, so it is a
total integer-valued function. -/
def jsSort {α : Type} (c : α → α → ℤ) : List α → List α
  | [] => []
  | x :: xs => jsOrderedInsert c x (jsSort c xs)

/-- Numeric value of a decimal digit character. -/
def digitVal (ch : Char) : ℕ := ch.toNat - 48

/-- Value of a run of decimal digit characters (JavaScript `parseInt` on a
digit-only string; exact, whereas the host loses precision above 2^53 —
irrelevant for the lengths that occur here). -/
def natOfDigits (ds : List Char) : ℕ :=
  ds.foldl (fun n ch => 10 * n + digitVal ch) 0

/-- The unit characters accepted by the relative-timestamp regex
`/(\d+)([smhd])/`. -/
def relativeUnits : List Char := ['s', 'm', 'h', 'd']

mutual

/-- Leftmost-match search for `/(\d+)([smhd])/`: scan for a digit. -/
def scanRelative : List Char → Option (ℕ × Char)
  | [] => none
  | ch :: rest =>
    if ch.isDigit then scanDigits (digitVal ch) rest else scanRelative rest

/-- Continue a digit run; when it ends, the very next character must be one
of `s`, `m`, `h`, `d`, otherwise no match can start inside or at the end of
this run and the scan resumes after the failing character. -/
def scanDigits (acc : ℕ) : List Char → Option (ℕ × Char)
  | [] => none
  | ch :: rest =>
    if ch.isDigit then scanDigits (10 * acc + digitVal ch) rest
    else if ch ∈ relativeUnits then some (acc, ch)
    else scanRelative rest

end

/-- The millisecond offset of one relative-timestamp unit, as in the
`switch` of `parseTimestamp` (the regex only ever produces s, m, h, d). -/
def relativeOffsetMs (value : ℕ) (unit : Char) : ℤ :=
  if unit = 's' then value * 1000
  else if unit = 'm' then value * 60 * 1000
  else if unit = 'h' then value * 60 * 60 * 1000
  else value * 24 * 60 * 60 * 1000

/-- The result of `parseTimestamp`: `null`, a valid `Date`, or an *invalid*
`Date` (`new Date(junk)`), which is still a truthy object whose arithmetic
yields `NaN`. -/
inductive JsDateVal where
  | null
  | valid (ms : ℤ)
  | invalid
  deriving DecidableEq, Repr

/-- JavaScript truthiness of a `parseTimestamp` result: `null` is falsy,
any `Date` object — valid or invalid — is truthy. -/
def JsDateVal.truthy : JsDateVal → Bool
  | .null => false
  | _ => true

/-- Order-preserving abstraction of the host's civil-calendar-to-epoch
conversion: `y*10000 + mo*100 + d` counts days monotonically in the date. -/
def dateMsOfParts (y mo d : ℕ) (msOfDay : ℕ) : ℤ :=
  ((y * 10000 + mo * 100 + d : ℕ) : ℤ) * 86400000 + (msOfDay : ℤ)

/-- Model of the host `new Date(string)` parser, which the ECMAScript
specification fixes only on ISO 8601 strings: `YYYY-MM-DD`, optionally
followed by `THH:MM:SSZ` or `THH:MM:SS.mmmZ`, parses to an epoch value;
everything else is an invalid date, modelled as `none`. -/
def jsDateParse (s : String) : Option ℤ :=
  match s.data with
  | y1 :: y2 :: y3 :: y4 :: '-' :: m1 :: m2 :: '-' :: d1 :: d2 :: rest =>
    if y1.isDigit ∧ y2.isDigit ∧ y3.isDigit ∧ y4.isDigit ∧ m1.isDigit ∧
        m2.isDigit ∧ d1.isDigit ∧ d2.isDigit then
      let y := natOfDigits [y1, y2, y3, y4]
      let mo := natOfDigits [m1, m2]
      let d := natOfDigits [d1, d2]
      if 1 ≤ mo ∧ mo ≤ 12 ∧ 1 ≤ d ∧ d ≤ 31 then
        match rest with
        | [] => some (dateMsOfParts y mo d 0)
        | 'T' :: h1 :: h2 :: ':' :: n1 :: n2 :: ':' :: s1 :: s2 :: tail =>
          if h1.isDigit ∧ h2.isDigit ∧ n1.isDigit ∧ n2.isDigit ∧
              s1.isDigit ∧ s2.isDigit then
            let hh := natOfDigits [h1, h2]
            let nn := natOfDigits [n1, n2]
            let ss := natOfDigits [s1, s2]
            if hh ≤ 23 ∧ nn ≤ 59 ∧ ss ≤ 59 then
              let base := ((hh * 60 + nn) * 60 + ss) * 1000
              match tail with
              | ['Z'] => some (dateMsOfParts y mo d base)
              | ['.', a, b, c, 'Z'] =>
                if a.isDigit ∧ b.isDigit ∧ c.isDigit then
                  some (dateMsOfParts y mo d (base + natOfDigits [a, b, c]))
                else none
              | _ => none
            else none
          else none
        | _ => none
      else none
    else none
  | _ => none

/-- Wrap a host date-parse result as the value `parseTimestamp` returns:
a successfully parsed string is a valid date, anything else is the truthy
Invalid Date object. -/
def ofDateParse : Option ℤ → JsDateVal
  | some ms => .valid ms
  | none => .invalid

/-- Model of `parseTimestamp` of the content script, with `Date.now()` passed in as
`now`: empty input is falsy and yields `null`; strings containing both `T`
and `Z` go to the host date parser; otherwise the first `/(\d+)([smhd])/`
match resolves to `now` minus the offset; otherwise the host date parser is
tried, whose failure produces an Invalid Date — not `null`. -/
def parseTimestamp (now : ℤ) (timestamp : String) : JsDateVal :=
  if timestamp = "" then .null
  else if timestamp.data.contains 'T' ∧ timestamp.data.contains 'Z' then
    ofDateParse (jsDateParse timestamp)
  else
    match scanRelative timestamp.data with
    | some (value, unit) => .valid (now - relativeOffsetMs value unit)
    | none => ofDateParse (jsDateParse timestamp)

/-- The comparator of `sortAndOrderPosts`, composed with `SortCompare`
semantics: when both parsed timestamps are truthy `Date`s the comparator
is `timeB - timeA` (`NaN`, arising from an invalid date, becomes `+0`);
otherwise it falls back to `a.scrollPosition - b.scrollPosition`. -/
def postCompare (now : ℤ) (a b : Post) : ℤ :=
  let timeA := parseTimestamp now a.timestamp
  let timeB := parseTimestamp now b.timestamp
  if timeA.truthy ∧ timeB.truthy then
    match timeA, timeB with
    | .valid ta, .valid tb => tb - ta
    | _, _ => 0
  else
    (a.scrollPosition : ℤ) - (b.scrollPosition : ℤ)

/-- Model of `sortAndOrderPosts`: sort with the mixed comparator, then assign dense
1-based `finalOrder` values along the sorted order. -/
def sortAndOrderPosts (now : ℤ) (posts : List Post) : List Post :=
  let sorted := jsSort (postCompare now) posts
  sorted.enum.map fun ip => { ip.2 with finalOrder := some (ip.1 + 1) }

/-- The post list assembled by `completeScraping`: the accumulated records,
deduplicated (`removeDuplicatePosts`) and then ordered
(`sortAndOrderPosts`). -/
def finalizedPosts (now : ℤ) (posts : List Post) : List Post :=
  sortAndOrderPosts now (removeDuplicatePosts posts)

/-- The filter of `parseCount`'s strip step: keep digits, `.`, `K`, `M`,
`k`, `m` (the regex `[^\\d.KMkm]` removes everything else). -/
def countFilter (ch : Char) : Bool :=
  ch.isDigit || ch = '.' || ch = 'K' || ch = 'M' || ch = 'k' || ch = 'm'

/-- The syntactic part of JavaScript `parseFloat` on the character set
reachable after the strip (digits, `.`, `K`, `M`, `k`, `m`): the longest
prefix of the form `digits`, `digits.digits`, `.digits` or `digits.`
parses into (integer digits value, fraction digits value, fraction
length); a prefix with no digit at all is `NaN` (`none`). -/
def jsParseFloatParts (s : String) : Option (ℕ × ℕ × ℕ) :=
  let ds1 := s.data.takeWhile Char.isDigit
  match s.data.dropWhile Char.isDigit with
  | '.' :: rest2 =>
    let ds2 := rest2.takeWhile Char.isDigit
    if ds1 = [] ∧ ds2 = [] then none
    else some (natOfDigits ds1, natOfDigits ds2, ds2.length)
  | _ => if ds1 = [] then none else some (natOfDigits ds1, 0, 0)

/-- JavaScript `parseFloat`, modelled with exact rationals; on every value
the specification mentions the binary floating-point result coincides. -/
def jsParseFloat (s : String) : Option ℚ :=
  (jsParseFloatParts s).map fun p => (p.1 : ℚ) + (p.2.1 : ℚ) / (10 : ℚ) ^ p.2.2

/-- Model of JavaScript `parseInt` (radix 10) on the same character set:
the leading digit run parses; an empty run is `NaN` (`none`). -/
def jsParseInt (s : String) : Option ℤ :=
  let ds := s.data.takeWhile Char.isDigit
  if ds = [] then none else some ((natOfDigits ds : ℤ))

/-- Model of `parseCount` of the content script (`parseEngagementCount` in
`SelectorUtils` is the same algorithm): empty input returns 0; all
characters other than digits, `.`, `K`, `M`, `k`, `m` are stripped; a
`K`/`k` anywhere in the stripped text selects `Math.floor(parseFloat *
1000)`, an `M`/`m` selects `Math.floor(parseFloat * 1000000)`, otherwise
`parseInt(...) || 0`.  The result is a JavaScript number: `none` models
`NaN`, which the `K`/`M` branches produce when no number can be parsed. -/
def parseCount (text : String) : Option ℤ :=
  if text = "" then some 0
  else if (text.data.filter countFilter).contains 'K' ∨
      (text.data.filter countFilter).contains 'k' then
    (jsParseFloat (String.mk (text.data.filter countFilter))).map fun q => (q * 1000).floor
  else if (text.data.filter countFilter).contains 'M' ∨
      (text.data.filter countFilter).contains 'm' then
    (jsParseFloat (String.mk (text.data.filter countFilter))).map fun q => (q * 1000000).floor
  else some ((jsParseInt (String.mk (text.data.filter countFilter))).getD 0)

/-- A post record with the fields relevant to ordering and deduplication;
the remaining fields take their defaults/empty values. -/
def mkPost (pid ptext pauthor pts : String) (scroll : ℕ) : Post :=
  { id := pid, order := 1, text := ptext, author := pauthor, timestamp := pts,
    url := "", metrics := {}, media := [],
    metadata := { isRetweet := false, isReply := false, hasThread := false,
                  language := "", verified := false },
    scrapedAt := "", scrollPosition := scroll }

/-- Returns `true` exactly on successfully resolved (valid) dates. -/
def JsDateVal.isValidB : JsDateVal → Bool
  | .valid _ => true
  | _ => false

/-- A record with its `finalOrder` annotation removed, for stating that
sorting permutes the records and changes nothing else. -/
def stripFinalOrder (p : Post) : Post :=
  { p with finalOrder := none }

/-- The run settings (`this.settings`). -/
structure ScraperSettings where
  scrollDelay : ℕ
  maxPosts : ℕ
  deriving DecidableEq, Repr

/-- The data the per-field extraction strategies recover from one visible,
valid DOM node, before `extractPostData` stamps run-relative fields. -/
structure DomPost where
  id : String
  text : String
  author : String
  timestamp : String
  url : String
  metrics : Metrics
  media : List MediaItem
  metadata : PostMetadata
  scrapedAt : String
  deriving DecidableEq, Repr

/-- The record `extractPostData` builds: `order` is stamped with
`scrapedPosts.size + 1` (the accumulated count at the time of extraction —
constant across one pass, since admission happens only after the whole
pass is extracted) and `scrollPosition` with the current scroll
counter. -/
def stampPost (mapSize scrollCount : ℕ) (d : DomPost) : Post :=
  { id := d.id, order := mapSize + 1, text := d.text, author := d.author,
    timestamp := d.timestamp, url := d.url, metrics := d.metrics,
    media := d.media, metadata := d.metadata, scrapedAt := d.scrapedAt,
    scrollPosition := scrollCount }

/-- Model of `extractPostData` proper: `null` when both text and media are empty,
otherwise the stamped record. -/
def extractPostData (mapSize scrollCount : ℕ) (d : DomPost) : Option Post :=
  if d.text = "" ∧ d.media = [] then none
  else some (stampPost mapSize scrollCount d)

/-- Model of `isValidPostData`: the record must have an id and some content. -/
def isValidPostData (p : Post) : Bool :=
  p.id != "" && (decide (0 < p.text.length) || decide (0 < p.media.length))

/-- Model of `extractPostsFromDOM`: extract every visible candidate node of the
pass and keep the records that pass `isValidPostData`.  (The selector
ranking and visibility filtering live in the environment: `dom` is the
list of nodes that survived them.) -/
def extractPostsFromDOM (mapSize scrollCount : ℕ) (dom : List DomPost) : List Post :=
  (dom.filterMap (extractPostData mapSize scrollCount)).filter isValidPostData

/-- One admission step of `scrapeCurrentPosts`: a record enters the
accumulated `Map` exactly when its id is truthy (non-empty) and not
already a key; the JavaScript `Map` appends new keys in insertion
order. -/
def admitOne (m : List (String × Post)) (p : Post) : List (String × Post) :=
  if p.id ≠ "" ∧ m.lookup p.id = none then m ++ [(p.id, p)] else m

/-- The `forEach` admission loop of `scrapeCurrentPosts`. -/
def admitPosts (m : List (String × Post)) (ps : List Post) : List (String × Post) :=
  ps.foldl admitOne m

/-- The run state of `XProfileScraper` (the fields the claims depend on).
`scrapedPosts` is the identity-keyed accumulation `Map`, in insertion
order. -/
structure ScrapeState where
  isScrapingActive : Bool
  scrapedPosts : List (String × Post)
  scrollCount : ℕ
  settings : ScraperSettings
  noNewContentCount : ℕ
  deriving DecidableEq, Repr

/-- Model of `scrapeCurrentPosts`: extract the currently rendered records and admit
each one keyed on its id.  (The initial `waitForElement` for the profile
column is assumed to succeed — the page is a profile page; the progress
event it sends afterwards carries no state.) -/
def scrapeCurrentPosts (st : ScrapeState) (dom : List DomPost) : ScrapeState :=
  { st with scrapedPosts := (admitPosts st.scrapedPosts
      (extractPostsFromDOM st.scrapedPosts.length st.scrollCount dom)) }

/-- A default metadata value for concrete examples. -/
def metadataDefaults : PostMetadata :=
  { isRetweet := false, isReply := false, hasThread := false,
    language := "", verified := false }

/-- A concrete extractable node for examples. -/
def mkDomPost (pid ptext pauthor pts : String) : DomPost :=
  { id := pid, text := ptext, author := pauthor, timestamp := pts, url := "",
    metrics := {}, media := [], metadata := metadataDefaults, scrapedAt := "" }

/-- A freshly started run state (`startScraping` resets everything). -/
def startState (settings : ScraperSettings) : ScrapeState :=
  { isScrapingActive := true, scrapedPosts := [], scrollCount := 0,
    settings := settings, noNewContentCount := 0 }

/-- An accumulated state that already holds one record with id "1" and
content `same text | 2h | au`. -/
def cexSeenState : ScrapeState :=
  { startState ⟨2000, 100⟩ with
    scrapedPosts := [("1", mkPost "1" "same text" "au" "2h" 0)] }

set_option maxRecDepth 4000

/-- What the page and the user did during one pass of the scroll loop:
whether the scroll action succeeded, whether new content appeared during
the bounded wait, the records extractable afterwards, `Date.now()` at the
no-new-posts bookkeeping point, a rate-limit signal, and stop requests
arriving at each of the loop's cancellation checkpoints. -/
structure PassEnv where
  scrollSuccess : Bool
  cancelDuringScroll : Bool
  newContent : Bool
  cancelDuringWait : Bool
  dom : List DomPost
  now : ℤ
  rateLimited : Bool
  cancelBeforeDelay : Bool
  cancelDuringDelay : Bool
  deriving DecidableEq, Repr

/-- Why `startAutoScroll`'s `while` loop ended (each constructor is one
`break`/exit site of the source loop). -/
inductive StopReason where
  | maxPostsReached
  | scrollFailed
  | stoppedByUser
  | silenceTimeout
  | emptyScrolls
  | rateLimited
  deriving DecidableEq, Repr

/-- The loop-local variables of `startAutoScroll` next to the scraper
state: `consecutiveEmptyScrolls` and `noNewPostsStartTime` (the start of
the rolling silence window, `null` when the last pass admitted posts). -/
structure LoopState where
  st : ScrapeState
  consecutiveEmptyScrolls : ℕ
  noNewPostsStartTime : Option ℤ
  deriving DecidableEq, Repr

/-- The tail of one loop pass, after the no-new-posts bookkeeping: the
consecutive-empty-scrolls break, the rate-limit break, the cancellation
check before the inter-pass delay, and the interruptible delay itself
(a stop request during the delay clears the flag; the `while` guard
observes it at the top of the next pass). -/
def stepRest (ls : LoopState) (e : PassEnv) : LoopState ⊕ (LoopState × StopReason) :=
  if ls.consecutiveEmptyScrolls ≥ 2 then .inr (ls, .emptyScrolls)
  else if e.rateLimited then .inr (ls, .rateLimited)
  else if e.cancelBeforeDelay then
    .inr ({ ls with st := { ls.st with isScrapingActive := false } }, .stoppedByUser)
  else
    .inl { ls with st := { ls.st with
      isScrapingActive := ls.st.isScrapingActive && !e.cancelDuringDelay } }

/-- One full iteration of `startAutoScroll`'s `while` loop, including the
loop guard: `inl` continues with the next pass, `inr` leaves the loop
(after which `completeScraping` runs).  The order of the checks is the
order of the source: guard, max-posts, scroll, post-scroll cancellation
check, bounded wait (bookkeeping plus its cancellation check),
`scrapeCurrentPosts`, max-posts again, the silence-window bookkeeping with
its 5-second break, then `stepRest`. -/
def passStep (ls : LoopState) (e : PassEnv) : LoopState ⊕ (LoopState × StopReason) :=
  if ¬ ls.st.isScrapingActive then .inr (ls, .stoppedByUser)
  else if ls.st.scrapedPosts.length ≥ ls.st.settings.maxPosts then
    .inr (ls, .maxPostsReached)
  else if ¬ e.scrollSuccess then .inr (ls, .scrollFailed)
  else
    let st1 : ScrapeState := { ls.st with
      scrollCount := ls.st.scrollCount + 1,
      isScrapingActive := ls.st.isScrapingActive && !e.cancelDuringScroll }
    if ¬ st1.isScrapingActive then .inr ({ ls with st := st1 }, .stoppedByUser)
    else
      let st2 : ScrapeState := { st1 with
        noNewContentCount := if e.newContent then 0 else st1.noNewContentCount + 1,
        isScrapingActive := st1.isScrapingActive && !e.cancelDuringWait }
      if ¬ st2.isScrapingActive then .inr ({ ls with st := st2 }, .stoppedByUser)
      else
        let st3 := scrapeCurrentPosts st2 e.dom
        if st3.scrapedPosts.length ≥ st3.settings.maxPosts then
          .inr ({ ls with st := st3 }, .maxPostsReached)
        else if st3.scrapedPosts.length - st2.scrapedPosts.length = 0 then
          match ls.noNewPostsStartTime with
          | none =>
            stepRest ⟨st3, ls.consecutiveEmptyScrolls + 1, some e.now⟩ e
          | some t0 =>
            if e.now - t0 ≥ 5000 then .inr ({ ls with st := st3 }, .silenceTimeout)
            else
              stepRest ⟨st3, ls.consecutiveEmptyScrolls + 1, some t0⟩ e
        else
          stepRest ⟨st3, 0, none⟩ e

/-- Run the loop over a finite script of pass environments.  `none` as the
second component means the script ended with the loop still running. -/
def runLoop : LoopState → List PassEnv → LoopState × Option StopReason
  | ls, [] => (ls, none)
  | ls, e :: rest =>
    match passStep ls e with
    | .inl ls2 => runLoop ls2 rest
    | .inr (ls2, r) => (ls2, some r)

/-- A whole run as `startScraping` performs it: reset state, one initial
`scrapeCurrentPosts` on the currently rendered records, then the
auto-scroll loop. -/
def runScraper (settings : ScraperSettings) (initialDom : List DomPost)
    (script : List PassEnv) : LoopState × Option StopReason :=
  runLoop { st := scrapeCurrentPosts (startState settings) initialDom,
            consecutiveEmptyScrolls := 0, noNewPostsStartTime := none } script

/-- The `dateRange` object of `getScrapingStats`. -/
structure DateRange where
  oldest : ℤ
  newest : ℤ
  span : ℤ
  deriving DecidableEq, Repr

/-- The ascending comparator `(a, b) => a - b` of `getDateRange`, composed
with `SortCompare` (`NaN`, from arithmetic on an invalid date, becomes
`+0`). -/
def dateCmp : JsDateVal → JsDateVal → ℤ
  | .valid a, .valid b => a - b
  | _, _ => 0

/-- Model of `toISOString()`: it succeeds exactly on valid dates; on an Invalid Date it
throws a `RangeError`, modelled as `none`. -/
def toMs : JsDateVal → Option ℤ
  | .valid ms => some ms
  | _ => none

/-- Model of `getDateRange`: parse all timestamps, keep the truthy values (valid
*and* invalid dates — `filter(Boolean)` does not remove Invalid Dates!),
sort ascending, and read off oldest/newest/span.  The outer `none` models
the `RangeError` thrown by `toISOString()` when an endpoint is an Invalid
Date; `some none` is the source's `null` for an empty list. -/
def getDateRange (now : ℤ) (posts : List Post) : Option (Option DateRange) :=
  let dates := (posts.map fun p => parseTimestamp now p.timestamp).filter JsDateVal.truthy
  match jsSort dateCmp dates with
  | [] => some none
  | first :: rest =>
    match toMs first, toMs ((first :: rest).getLast (List.cons_ne_nil _ _)) with
    | some o, some n =>
      some (some { oldest := o, newest := n, span := if rest = [] then 0 else n - o })
    | _, _ => none

/-- First-occurrence deduplication, modelling `[...new Set(xs)]`. -/
def dedupFirst : List String → List String
  | [] => []
  | x :: xs => x :: (dedupFirst xs).filter fun y => y ≠ x

/-- The statistics record of `getScrapingStats`. -/
structure ScrapeStats where
  totalPosts : ℕ
  totalScrolls : ℕ
  postsWithMedia : ℕ
  postsWithText : ℕ
  retweets : ℕ
  replies : ℕ
  threads : ℕ
  verified : ℕ
  languages : List String
  dateRange : Option DateRange
  deriving DecidableEq, Repr

/-- Model of `getScrapingStats` over the finalized posts; `none` models the
exception propagated out of `getDateRange`. -/
def getScrapingStats (now : ℤ) (scrollCount : ℕ) (posts : List Post) :
    Option ScrapeStats :=
  (getDateRange now posts).map fun dr =>
    { totalPosts := posts.length
      totalScrolls := scrollCount
      postsWithMedia := (posts.filter fun p => decide (0 < p.media.length)).length
      postsWithText := (posts.filter fun p => decide (0 < p.text.length)).length
      retweets := (posts.filter fun p => p.metadata.isRetweet).length
      replies := (posts.filter fun p => p.metadata.isReply).length
      threads := (posts.filter fun p => p.metadata.hasThread).length
      verified := (posts.filter fun p => p.metadata.verified).length
      languages := dedupFirst (posts.filterMap fun p =>
        if p.metadata.language = "" then none else some p.metadata.language)
      dateRange := dr }

/-- The payload of the `scrapingComplete` message. -/
structure CompleteEvent where
  posts : List Post
  totalScrolls : ℕ
  stats : ScrapeStats
  deriving DecidableEq, Repr

/-- Model of `completeScraping`: clear the active flag, deduplicate and order the
accumulated records, and send the terminal event carrying them together
with the statistics.  A `none` event models the exception thrown inside
`getScrapingStats` (Invalid Date endpoints), in which case no completion
message is sent. -/
def completeScraping (now : ℤ) (st : ScrapeState) : ScrapeState × Option CompleteEvent :=
  let stInactive := { st with isScrapingActive := false }
  let posts := finalizedPosts now (st.scrapedPosts.map fun e => e.2)
  match getScrapingStats now st.scrollCount posts with
  | some stats =>
    (stInactive, some { posts := posts, totalScrolls := st.scrollCount, stats := stats })
  | none => (stInactive, none)

/-- The events the scraper sends to the popup (progress updates and the
terminal completion message; the fields the claims inspect). -/
inductive ScraperEvent where
  | progress (postsFound : ℕ) (message : String)
  | complete (ev : CompleteEvent)
  deriving DecidableEq, Repr

/-- Model of `stopScraping`, immediate part: clear the active flag and send a
progress update with the message "Stopping scraper...".  (Its `setTimeout`
callback is modelled at the use site.) -/
def stopScraping (st : ScrapeState) : ScrapeState × List ScraperEvent :=
  ({ st with isScrapingActive := false },
   [ScraperEvent.progress st.scrapedPosts.length "Stopping scraper..."])

/-- Model of `completeScraping` viewed as an event emission. -/
def completionEvents (now : ℤ) (st : ScrapeState) : ScrapeState × List ScraperEvent :=
  match completeScraping now st with
  | (st2, some ev) => (st2, [ScraperEvent.complete ev])
  | (st2, none) => (st2, [])

/-- The event sequence after a stop request arrives while the loop is in
the inter-pass delay: `stopScraping` clears the flag, emits the progress
event and schedules completion 500 ms later; the interruptible delay
returns within one 100 ms poll, the `while` guard observes the cleared
flag, the loop exits and calls `completeScraping`; at 500 ms the scheduled
callback finds the flag still cleared and calls `completeScraping` a
second time. -/
def stopDuringDelayEvents (now : ℤ) (st : ScrapeState) : List ScraperEvent :=
  let stopped := stopScraping st
  let loopExit := completionEvents now stopped.1
  let timerEvents :=
    if ¬ loopExit.1.isScrapingActive then (completionEvents now loopExit.1).2 else []
  stopped.2 ++ loopExit.2 ++ timerEvents

/-- How many completion messages a trace contains. -/
def countCompletions (evs : List ScraperEvent) : ℕ :=
  (evs.filter fun ev => match ev with
    | .complete _ => true
    | _ => false).length

/-- A pass during which the page yields nothing and nothing goes wrong:
the scroll succeeds, no new records render, no rate-limit signal, no stop
request; `t` is the wall clock at the pass's bookkeeping point. -/
def benignEmptyEnv (t : ℤ) : PassEnv :=
  { scrollSuccess := true, cancelDuringScroll := false, newContent := false,
    cancelDuringWait := false, dom := [], now := t, rateLimited := false,
    cancelBeforeDelay := false, cancelDuringDelay := false }

/-- The combined survival condition of `extractPostData` plus
`isValidPostData`, expressed on the node data. -/
def domValid (d : DomPost) : Bool :=
  d.id != "" && (decide (0 < d.text.length) || decide (0 < d.media.length))

/-- The exhaustive stop condition of one loop pass: the run was already
cancelled (or a stop request arrives at one of the three in-pass
checkpoints); the accepted-post count reached the maximum (before or after
the pass); the scroll action failed; the pass admitted nothing and the
5-second silence window that started at an earlier empty pass has elapsed;
the pass admitted nothing and it is the second consecutive empty pass; or
a rate-limit/error signal was detected. -/
def loopStopsCondition (ls : LoopState) (e : PassEnv) : Prop :=
  ls.st.isScrapingActive = false ∨
  ls.st.settings.maxPosts ≤ ls.st.scrapedPosts.length ∨
  e.scrollSuccess = false ∨
  e.cancelDuringScroll = true ∨
  e.cancelDuringWait = true ∨
  ls.st.settings.maxPosts ≤ (scrapeCurrentPosts ls.st e.dom).scrapedPosts.length ∨
  ((scrapeCurrentPosts ls.st e.dom).scrapedPosts.length = ls.st.scrapedPosts.length ∧
    ∃ t0, ls.noNewPostsStartTime = some t0 ∧ 5000 ≤ e.now - t0) ∨
  ((scrapeCurrentPosts ls.st e.dom).scrapedPosts.length = ls.st.scrapedPosts.length ∧
    1 ≤ ls.consecutiveEmptyScrolls) ∨
  e.rateLimited = true ∨
  e.cancelBeforeDelay = true

/-- The ordering invariant on the accumulated map: `order` stamps are
nondecreasing in admission order and never exceed the accumulated count. -/
def OrdersInv (m : List (String × Post)) : Prop :=
  List.Pairwise (fun a b => a.2.order ≤ b.2.order) m ∧ ∀ p ∈ m, p.2.order ≤ m.length

/-- The record `extractPostData` produces for a concrete example node. -/
def cexExtractedPost : Post := stampPost 0 0 (mkDomPost "d1" "text one" "au" "2h")

theorem distinctKeys_symm {a b : Post} (h : DistinctKeys a b) : DistinctKeys b a :=
  ⟨fun e => h.1 e.symm, fun e => h.2 e.symm⟩

theorem removeDupAux_not_seen (seen : List String) (l : List Post) :
    ∀ p ∈ removeDupAux seen l, p.id ∉ seen ∧ createContentHash p ∉ seen := by
  induction l generalizing seen with
  | nil => intro p hp; simp [removeDupAux] at hp
  | cons q rest ih =>
    intro p hp
    by_cases hq : q.id ∉ seen ∧ createContentHash q ∉ seen
    · rw [removeDupAux, if_pos hq] at hp
      rcases List.mem_cons.mp hp with h | h
      · exact h ▸ hq
      · have := ih _ p h
        constructor
        · intro hmem
          exact this.1 (List.mem_cons_of_mem _ (List.mem_cons_of_mem _ hmem))
        · intro hmem
          exact this.2 (List.mem_cons_of_mem _ (List.mem_cons_of_mem _ hmem))
    · rw [removeDupAux, if_neg hq] at hp
      exact ih seen p hp

theorem removeDupAux_pairwise (seen : List String) (l : List Post) :
    List.Pairwise DistinctKeys (removeDupAux seen l) := by
  induction l generalizing seen with
  | nil => simp [removeDupAux]
  | cons q rest ih =>
    by_cases hq : q.id ∉ seen ∧ createContentHash q ∉ seen
    · rw [removeDupAux, if_pos hq]
      refine List.pairwise_cons.mpr ⟨?_, ih _⟩
      intro p hp
      have h := removeDupAux_not_seen _ rest p hp
      constructor
      · intro e
        exact h.1 (e ▸ List.mem_cons_of_mem _ (List.mem_cons_self _ _))
      · intro e
        exact h.2 (e ▸ List.mem_cons_self _ _)
    · rw [removeDupAux, if_neg hq]
      exact ih seen

theorem removeDupAux_idem (seen : List String) (l : List Post) :
    removeDupAux seen (removeDupAux seen l) = removeDupAux seen l := by
  induction l generalizing seen with
  | nil => simp [removeDupAux]
  | cons q rest ih =>
    by_cases hq : q.id ∉ seen ∧ createContentHash q ∉ seen
    · rw [removeDupAux, if_pos hq, removeDupAux, if_pos hq, ih]
    · rw [removeDupAux, if_neg hq, ih]

theorem jsOrderedInsert_perm {α : Type} (c : α → α → ℤ) (x : α) (l : List α) :
    (jsOrderedInsert c x l).Perm (x :: l) := by
  induction l with
  | nil => simp [jsOrderedInsert]
  | cons y ys ih =>
    rw [jsOrderedInsert]
    by_cases h : c y x < 0
    · rw [if_pos h]
      exact (ih.cons y).trans (List.Perm.swap x y ys)
    · rw [if_neg h]

theorem jsSort_perm {α : Type} (c : α → α → ℤ) (l : List α) :
    (jsSort c l).Perm l := by
  induction l with
  | nil => simp [jsSort]
  | cons x xs ih =>
    exact (jsOrderedInsert_perm c x (jsSort c xs)).trans (ih.cons x)

theorem jsOrderedInsert_pairwise {α : Type} (c : α → α → ℤ)
    (hanti : ∀ a b, c a b = - c b a) (x : α) (l : List α)
    (hl : List.Pairwise (fun a b => c a b ≤ 0) l)
    (htrans : ∀ a ∈ x :: l, ∀ b ∈ x :: l, ∀ d ∈ x :: l,
      c a b ≤ 0 → c b d ≤ 0 → c a d ≤ 0) :
    List.Pairwise (fun a b => c a b ≤ 0) (jsOrderedInsert c x l) := by
  induction l with
  | nil => simp [jsOrderedInsert]
  | cons y ys ih =>
    rcases List.pairwise_cons.mp hl with ⟨hy, hys⟩
    rw [jsOrderedInsert]
    by_cases h : c y x < 0
    · rw [if_pos h]
      refine List.pairwise_cons.mpr ⟨?_, ?_⟩
      · intro z hz
        have hz2 := (jsOrderedInsert_perm c x ys).mem_iff.mp hz
        rcases List.mem_cons.mp hz2 with rfl | hzys
        · exact le_of_lt h
        · exact hy z hzys
      · refine ih hys ?_
        intro a ha b hb d hd
        have sub : ∀ e, e ∈ x :: ys → e ∈ x :: y :: ys := by
          intro e he
          rcases List.mem_cons.mp he with rfl | he2
          · exact List.mem_cons_self _ _
          · exact List.mem_cons_of_mem _ (List.mem_cons_of_mem _ he2)
        exact htrans a (sub a ha) b (sub b hb) d (sub d hd)
    · rw [if_neg h]
      refine List.pairwise_cons.mpr ⟨?_, hl⟩
      intro z hz
      have hxy : c x y ≤ 0 := by
        have := hanti x y
        omega
      rcases List.mem_cons.mp hz with rfl | hzys
      · exact hxy
      · refine htrans x (List.mem_cons_self _ _) y
          (List.mem_cons_of_mem _ (List.mem_cons_self _ _)) z
          (List.mem_cons_of_mem _ (List.mem_cons_of_mem _ hzys)) hxy (hy z hzys)

theorem jsSort_pairwise {α : Type} (c : α → α → ℤ)
    (hanti : ∀ a b, c a b = - c b a) (l : List α)
    (htrans : ∀ a ∈ l, ∀ b ∈ l, ∀ d ∈ l, c a b ≤ 0 → c b d ≤ 0 → c a d ≤ 0) :
    List.Pairwise (fun a b => c a b ≤ 0) (jsSort c l) := by
  induction l with
  | nil => simp [jsSort]
  | cons x xs ih =>
    rw [jsSort]
    have hmem : ∀ e, e ∈ x :: jsSort c xs → e ∈ x :: xs := by
      intro e he
      rcases List.mem_cons.mp he with rfl | he2
      · exact List.mem_cons_self _ _
      · exact List.mem_cons_of_mem _ ((jsSort_perm c xs).mem_iff.mp he2)
    refine jsOrderedInsert_pairwise c hanti x (jsSort c xs) ?_ ?_
    · refine ih ?_
      intro a ha b hb d hd
      exact htrans a (List.mem_cons_of_mem _ ha) b (List.mem_cons_of_mem _ hb)
        d (List.mem_cons_of_mem _ hd)
    · intro a ha b hb d hd
      exact htrans a (hmem a ha) b (hmem b hb) d (hmem d hd)

theorem postCompare_anti (now : ℤ) (a b : Post) :
    postCompare now a b = - postCompare now b a := by
  unfold postCompare
  rcases parseTimestamp now a.timestamp with _ | ta | _ <;>
    rcases parseTimestamp now b.timestamp with _ | tb | _ <;>
      simp [JsDateVal.truthy] <;> ring

theorem pairwise_stamp (R : Post → Post → Prop) (l : List Post)
    (h : List.Pairwise R l)
    (hR : ∀ a b i j, R a b →
      R { a with finalOrder := some i } { b with finalOrder := some j }) :
    List.Pairwise R (l.enum.map fun ip => { ip.2 with finalOrder := some (ip.1 + 1) }) := by
  rw [List.pairwise_map]
  have h2 : List.Pairwise (fun a b : ℕ × Post => R a.2 b.2) l.enum := by
    have hsnd : l.enum.map Prod.snd = l := List.enum_map_snd l
    have := hsnd ▸ h
    exact List.pairwise_map.mp this
  exact h2.imp (fun hab => hR _ _ _ _ hab)

/-- C10: the finalizer's defensive deduplication pass is idempotent:
applying `removeDuplicatePosts` to its own output returns that output
unchanged, since the content hash is a pure function of the record and the
seen-set argument evolves identically on both runs. -/
theorem removeDuplicatePosts_idem (posts : List Post) :
    removeDuplicatePosts (removeDuplicatePosts posts) = removeDuplicatePosts posts :=
  removeDupAux_idem [] posts

/-- C1: in the finalized output (`removeDuplicatePosts` then
`sortAndOrderPosts`), every pair of records has distinct `id`s and distinct
content hashes — no two records share either key. -/
theorem finalizedPosts_distinct_keys (now : ℤ) (posts : List Post) :
    List.Pairwise DistinctKeys (finalizedPosts now posts) := by
  have h1 : List.Pairwise DistinctKeys (removeDuplicatePosts posts) :=
    removeDupAux_pairwise [] posts
  have h2 : List.Pairwise DistinctKeys
      (jsSort (postCompare now) (removeDuplicatePosts posts)) := by
    have hperm := jsSort_perm (postCompare now) (removeDuplicatePosts posts)
    exact ((hperm.pairwise_iff (fun h => distinctKeys_symm h)).mpr h1)
  unfold finalizedPosts sortAndOrderPosts
  refine pairwise_stamp DistinctKeys _ h2 ?_
  intro a b i j hab
  exact hab

theorem jsParseFloat_nonneg (s : String) (q : ℚ) (h : jsParseFloat s = some q) :
    0 ≤ q := by
  unfold jsParseFloat at h
  rcases hp : jsParseFloatParts s with _ | p
  · rw [hp] at h
    exact absurd h (by simp)
  · rw [hp] at h
    simp only [Option.map, Option.some_inj] at h
    subst h
    positivity

theorem jsParseInt_nonneg (s : String) (k : ℤ) (h : jsParseInt s = some k) :
    0 ≤ k := by
  unfold jsParseInt at h
  dsimp only at h
  split at h
  · exact absurd h (by simp)
  · rw [Option.some_inj] at h
    subst h
    exact Int.ofNat_nonneg _

/-- C4 counterexample: the input `"K"` survives the strip, takes the `K`
branch, and `Math.floor(parseFloat("K") * 1000)` is `NaN` — not `0`, which
the claim requires for unparseable input, and not a non-negative
integer. -/
theorem parseCount_cex : parseCount "K" = none ∧ parseCount "K" ≠ some 0 := by
  have h : parseCount "K" = none := by
    rw [parseCount, if_neg (by decide), if_pos (by decide), jsParseFloat,
      show jsParseFloatParts (String.mk ("K".data.filter countFilter)) = none from by decide]
    rfl
  refine ⟨h, ?_⟩
  rw [h]
  simp

/-- C4 (amended): the engagement-count parser strips all characters except
digits, `.`, `K/k`, `M/m`; a `K`/`k` in the stripped text yields
`floor(parsed float × 1000)` and an `M`/`m` yields `floor(parsed float ×
1000000)`; otherwise an integer parse with fallback 0.  The spec's examples
hold (`"1.2K"` → 1200, `"3M"` → 3000000, `"47"` → 47, `""` → 0) and every
*numeric* result is a non-negative integer — but a `K`/`M` input with no
leading number (e.g. `"K"`) produces `NaN` rather than 0. -/
theorem parseCount_amended :
    parseCount "1.2K" = some 1200 ∧ parseCount "3M" = some 3000000 ∧
    parseCount "47" = some 47 ∧ parseCount "" = some 0 ∧
    ∀ s n, parseCount s = some n → 0 ≤ n := by
  refine ⟨?_, ?_, by decide, by decide, ?_⟩
  · rw [parseCount, if_neg (by decide), if_pos (by decide), jsParseFloat,
      show jsParseFloatParts (String.mk ("1.2K".data.filter countFilter)) = some (1, 2, 1)
        from by decide]
    norm_num [Rat.floor]
  · rw [parseCount, if_neg (by decide), if_neg (by decide), if_pos (by decide), jsParseFloat,
      show jsParseFloatParts (String.mk ("3M".data.filter countFilter)) = some (3, 0, 0)
        from by decide]
    norm_num [Rat.floor]
  · intro s n h
    rw [parseCount] at h
    split at h
    · rw [Option.some_inj] at h
      omega
    · split at h
      · rcases hq : jsParseFloat (String.mk (s.data.filter countFilter)) with _ | q
        · rw [hq] at h
          exact absurd h (by simp)
        · rw [hq] at h
          simp only [Option.map, Option.some_inj] at h
          subst h
          have h0 : (0 : ℚ) ≤ q * 1000 := by
            have := jsParseFloat_nonneg _ q hq
            positivity
          exact Rat.le_floor.mpr (by exact_mod_cast h0)
      · split at h
        · rcases hq : jsParseFloat (String.mk (s.data.filter countFilter)) with _ | q
          · rw [hq] at h
            exact absurd h (by simp)
          · rw [hq] at h
            simp only [Option.map, Option.some_inj] at h
            subst h
            have h0 : (0 : ℚ) ≤ q * 1000000 := by
              have := jsParseFloat_nonneg _ q hq
              positivity
            exact Rat.le_floor.mpr (by exact_mod_cast h0)
        · rcases hk : jsParseInt (String.mk (s.data.filter countFilter)) with _ | k
          · rw [hk] at h
            rw [Option.some_inj] at h
            simp at h
            omega
          · rw [hk] at h
            rw [Option.some_inj] at h
            have := jsParseInt_nonneg _ k hk
            simp at h
            omega

theorem parseCount_amended_witness : (0 : ℤ) ≤ 1200 :=
  parseCount_amended.2.2.2.2 "1.2K" 1200 parseCount_amended.1

theorem scanDigits_append (ds : List Char) (acc : ℕ) (l : List Char) :
    (∀ c ∈ ds, c.isDigit = true) →
    scanDigits acc (ds ++ l) =
      scanDigits (ds.foldl (fun n c => 10 * n + digitVal c) acc) l := by
  induction ds generalizing acc with
  | nil => intro _; rfl
  | cons c ds ih =>
    intro h
    have hc : c.isDigit = true := h c (List.mem_cons_self _ _)
    rw [List.cons_append, scanDigits, if_pos hc, List.foldl_cons]
    exact ih _ (fun e he => h e (List.mem_cons_of_mem _ he))

theorem scanRelative_shape (ds : List Char) (u : Char) (hne : ds ≠ [])
    (hds : ∀ c ∈ ds, c.isDigit = true) (hu : u ∈ relativeUnits) :
    scanRelative (ds ++ [u]) = some (natOfDigits ds, u) := by
  have hu2 : u = 's' ∨ u = 'm' ∨ u = 'h' ∨ u = 'd' := by
    simpa [relativeUnits] using hu
  have hud : u.isDigit = false := by
    rcases hu2 with rfl | rfl | rfl | rfl <;> decide
  rcases ds with _ | ⟨c, rest⟩
  · exact absurd rfl hne
  · have hc : c.isDigit = true := hds c (List.mem_cons_self _ _)
    rw [List.cons_append, scanRelative, if_pos hc,
      scanDigits_append rest _ [u] (fun e he => hds e (List.mem_cons_of_mem _ he)),
      scanDigits, if_neg (by rw [hud]; exact Bool.false_ne_true), if_pos hu]
    have hfold : natOfDigits (c :: rest) =
        rest.foldl (fun n e => 10 * n + digitVal e) (digitVal c) := by
      rw [natOfDigits, List.foldl_cons]
      norm_num
    rw [hfold]

theorem parseTimestamp_relative (now : ℤ) (ds : List Char) (u : Char)
    (hne : ds ≠ []) (hds : ∀ c ∈ ds, c.isDigit = true) (hu : u ∈ relativeUnits) :
    parseTimestamp now (String.mk (ds ++ [u])) =
      JsDateVal.valid (now - relativeOffsetMs (natOfDigits ds) u) := by
  have hu2 : u = 's' ∨ u = 'm' ∨ u = 'h' ∨ u = 'd' := by
    simpa [relativeUnits] using hu
  have hchars : ∀ c ∈ ds ++ [u], c ≠ 'T' := by
    intro c hc
    rcases List.mem_append.mp hc with hc | hc
    · have := hds c hc
      rintro rfl
      simp at this
    · rw [List.mem_singleton] at hc
      subst hc
      rcases hu2 with rfl | rfl | rfl | rfl <;> decide
  have hdata : (String.mk (ds ++ [u])).data = ds ++ [u] := rfl
  rw [parseTimestamp]
  rw [if_neg (by
    intro he
    have h2 : (ds ++ [u] : List Char) = [] := congrArg String.data he
    simp at h2)]
  rw [if_neg (by
    rintro ⟨hT, _⟩
    rw [hdata] at hT
    have hmem : 'T' ∈ ds ++ [u] := by simpa using hT
    exact hchars 'T' hmem rfl)]
  rw [hdata, scanRelative_shape ds u hne hds hu]

theorem parseTimestamp_null_iff (now : ℤ) (ts : String) :
    parseTimestamp now ts = JsDateVal.null ↔ ts = "" := by
  constructor
  · intro h
    by_contra hne
    rw [parseTimestamp, if_neg hne] at h
    split at h
    · rcases hjp : jsDateParse ts with _ | ms <;> rw [hjp] at h <;>
        exact absurd h (by simp [ofDateParse])
    · split at h
      · exact absurd h (by simp)
      · rcases hjp : jsDateParse ts with _ | ms <;> rw [hjp] at h <;>
          exact absurd h (by simp [ofDateParse])
  · intro h
    rw [h]
    rfl

/-- C7 counterexample: a non-empty string that fails every parsing route
yields the truthy Invalid Date object, not `null` as the claim states. -/
theorem parseTimestamp_cex :
    parseTimestamp 0 "not-a-date" = JsDateVal.invalid ∧
    JsDateVal.invalid ≠ JsDateVal.null ∧ JsDateVal.invalid.truthy = true := by
  refine ⟨?_, by decide, by decide⟩
  decide

/-- C7 (amended): timestamp resolution is total (never throws); a string of
shape `<digits><unit>` with unit in {s,m,h,d} resolves to `now` minus the
offset at resolution time; the result is `null` exactly for the empty
string; and any other string that fails generic date parsing yields the
truthy Invalid Date value — not `null`. -/
theorem parseTimestamp_amended :
    (∀ now ts, parseTimestamp now ts = JsDateVal.null ↔ ts = "") ∧
    (∀ now ds u, ds ≠ [] → (∀ c ∈ ds, c.isDigit = true) → u ∈ relativeUnits →
      parseTimestamp now (String.mk (ds ++ [u])) =
        JsDateVal.valid (now - relativeOffsetMs (natOfDigits ds) u)) ∧
    (∀ now ts, ts ≠ "" → scanRelative ts.data = none → jsDateParse ts = none →
      parseTimestamp now ts = JsDateVal.invalid) := by
  refine ⟨parseTimestamp_null_iff, parseTimestamp_relative, ?_⟩
  intro now ts hne hscan hjp
  rw [parseTimestamp, if_neg hne]
  split
  · rw [hjp]
    rfl
  · rw [hscan, hjp]
    rfl

theorem parseTimestamp_amended_witness :
    parseTimestamp 0 "2h" = JsDateVal.valid (-7200000) := by
  have h := parseTimestamp_amended.2.1 0 ['2'] 'h' (by decide) (by decide) (by decide)
  norm_num [relativeOffsetMs, natOfDigits, digitVal] at h
  exact h

theorem isValidB_iff {v : JsDateVal} : v.isValidB = true ↔ ∃ ms, v = JsDateVal.valid ms := by
  cases v <;> simp [JsDateVal.isValidB]

/-- C6 counterexample: three records — resolved "5h" at scroll 0,
unresolved "" at scroll 1, resolved "1h" at scroll 2.  Both outer records
have resolved timestamps and the "1h" record is strictly newer, yet the
mixed comparator routes both of their comparisons with the middle record
through the scroll-position fallback, so the final order is
["A", "N", "B"]: the *older* resolved record precedes the newer one,
violating the claimed global timestamp-descending guarantee. -/
theorem sortAndOrderPosts_cex :
    (sortAndOrderPosts 0 [mkPost "A" "older" "au" "5h" 0,
        mkPost "N" "neither" "au" "" 1,
        mkPost "B" "newer" "au" "1h" 2]).map Post.id = ["A", "N", "B"] ∧
    parseTimestamp 0 (mkPost "B" "newer" "au" "1h" 2).timestamp =
      JsDateVal.valid (-3600000) ∧
    parseTimestamp 0 (mkPost "A" "older" "au" "5h" 0).timestamp =
      JsDateVal.valid (-18000000) ∧
    ((-3600000 : ℤ) > -18000000) := by
  refine ⟨by decide, by decide, by decide, by decide⟩

/-- C6 (amended): `sortAndOrderPosts` assigns `finalOrder` densely 1..N
along the sorted order; its output is a permutation of its input (modulo
the `finalOrder` annotation); and *when every record has a resolved
timestamp* the final order is globally timestamp-descending.  The global
cross-pair guarantee of the claim does not survive records with unresolved
timestamps interleaved between a resolved pair. -/
theorem sortAndOrderPosts_amended :
    (∀ now posts, (sortAndOrderPosts now posts).map Post.finalOrder =
      (List.range posts.length).map fun i => some (i + 1)) ∧
    (∀ now posts, ((sortAndOrderPosts now posts).map stripFinalOrder).Perm
      (posts.map stripFinalOrder)) ∧
    (∀ now posts, (∀ p ∈ posts, (parseTimestamp now p.timestamp).isValidB = true) →
      List.Pairwise (fun a b => ∀ ta tb,
        parseTimestamp now a.timestamp = JsDateVal.valid ta →
        parseTimestamp now b.timestamp = JsDateVal.valid tb → tb ≤ ta)
        (sortAndOrderPosts now posts)) := by
  refine ⟨?_, ?_, ?_⟩
  · intro now posts
    unfold sortAndOrderPosts
    rw [List.map_map]
    have h1 : (Post.finalOrder ∘ fun ip : ℕ × Post =>
        { ip.2 with finalOrder := some (ip.1 + 1) }) =
        ((fun i => some (i + 1)) ∘ Prod.fst) := rfl
    rw [h1, ← List.map_map, List.enum_map_fst,
      (jsSort_perm (postCompare now) posts).length_eq]
  · intro now posts
    unfold sortAndOrderPosts
    rw [List.map_map]
    have h1 : (stripFinalOrder ∘ fun ip : ℕ × Post =>
        { ip.2 with finalOrder := some (ip.1 + 1) }) =
        (stripFinalOrder ∘ Prod.snd) := rfl
    rw [h1, ← List.map_map, List.enum_map_snd]
    exact (jsSort_perm (postCompare now) posts).map stripFinalOrder
  · intro now posts hvalid
    unfold sortAndOrderPosts
    refine pairwise_stamp _ _ ?_ ?_
    · have hpair : List.Pairwise (fun a b => postCompare now a b ≤ 0)
          (jsSort (postCompare now) posts) := by
        refine jsSort_pairwise (postCompare now) (postCompare_anti now) posts ?_
        intro a ha b hb d hd hab hbd
        obtain ⟨ta, hva⟩ := isValidB_iff.mp (hvalid a ha)
        obtain ⟨tb, hvb⟩ := isValidB_iff.mp (hvalid b hb)
        obtain ⟨td, hvd⟩ := isValidB_iff.mp (hvalid d hd)
        simp only [postCompare, hva, hvb, hvd, JsDateVal.truthy, and_self,
          if_true] at hab hbd ⊢
        omega
      refine List.Pairwise.imp_of_mem ?_ hpair
      intro a b _ _ hc ta tb hta htb
      simp only [postCompare, hta, htb, JsDateVal.truthy, and_self, if_true] at hc
      omega
    · intro a b i j hab ta tb hta htb
      exact hab ta tb hta htb

theorem sortAndOrderPosts_amended_witness :
    List.Pairwise (fun a b => ∀ ta tb,
      parseTimestamp 0 a.timestamp = JsDateVal.valid ta →
      parseTimestamp 0 b.timestamp = JsDateVal.valid tb → tb ≤ ta)
      (sortAndOrderPosts 0 [mkPost "w1" "t" "a" "1h" 0, mkPost "w2" "t" "a" "5h" 1]) :=
  sortAndOrderPosts_amended.2.2 0
    [mkPost "w1" "t" "a" "1h" 0, mkPost "w2" "t" "a" "5h" 1] (by decide)

/-- C2 counterexample: a record with a fresh id `"2"` but the *same*
text/timestamp/author — hence the same content hash — as the record
already accumulated is nevertheless admitted by the per-pass admission:
per-pass admission consults only the identity key, never the content
hash (the second conjunct exhibits the duplicated content hash in the
accumulated map). -/
theorem scrapeCurrentPosts_cex :
    ((scrapeCurrentPosts cexSeenState
      [mkDomPost "2" "same text" "au" "2h"]).scrapedPosts.lookup "2").isSome = true ∧
    ¬ ((scrapeCurrentPosts cexSeenState
      [mkDomPost "2" "same text" "au" "2h"]).scrapedPosts.map
        fun e => createContentHash e.2).Nodup := by
  refine ⟨by decide, by decide⟩

/-- C2 (amended): per-pass admission accepts a record exactly when its id
is non-empty and not yet a key of the accumulated map; the content hash
plays no part until the finalizer's deduplication pass. -/
theorem admitOne_amended (m : List (String × Post)) (p : Post) :
    admitOne m p = m ++ [(p.id, p)] ↔ (p.id ≠ "" ∧ m.lookup p.id = none) := by
  unfold admitOne
  split
  · rename_i h
    exact iff_of_true rfl h
  · rename_i h
    constructor
    · intro he
      have := congrArg List.length he
      simp at this
    · intro hc
      exact absurd hc h

/-- C3 counterexample: two distinct extractable records in one pass, both
admitted from a fresh run — and both carry `order = 1`, because the
stamp `scrapedPosts.size + 1` is computed during extraction, before any
admission of the pass happens.  `sequenceIndex` values are therefore
neither strictly increasing nor unique in admission order. -/
theorem extractPostData_order_cex :
    ((scrapeCurrentPosts (startState ⟨2000, 100⟩)
      [mkDomPost "d1" "text one" "au" "2h",
       mkDomPost "d2" "text two" "au" "3h"]).scrapedPosts.map
      fun e => e.2.order) = [1, 1] := by decide

/-- C5 counterexample: two benign empty passes 1000 ms apart stop the loop
with the consecutive-empty-scrolls break alone.  At that point the claim's
conjunction does not hold: only 1000 ms (< 5000 ms) of the silence window
have elapsed, the accepted count (0) is far below the maximum (100), the
scroll succeeded and no error/rate-limit signal was seen — the
two-empty-passes condition and the 5-second window are independent `OR`
triggers in the code, not an `AND` as claimed. -/
theorem startAutoScroll_cex :
    (runScraper ⟨2000, 100⟩ [] [benignEmptyEnv 0, benignEmptyEnv 1000]).2
      = some StopReason.emptyScrolls ∧
    (runScraper ⟨2000, 100⟩ [] [benignEmptyEnv 0, benignEmptyEnv 1000]).1.st.scrapedPosts.length
      = 0 ∧
    ((1000 : ℤ) - 0 < 5000) ∧
    (benignEmptyEnv 0).scrollSuccess = true ∧ (benignEmptyEnv 1000).scrollSuccess = true ∧
    (benignEmptyEnv 0).rateLimited = false ∧ (benignEmptyEnv 1000).rateLimited = false ∧
    (benignEmptyEnv 1000).cancelDuringScroll = false ∧
    (benignEmptyEnv 1000).cancelDuringWait = false ∧
    (benignEmptyEnv 1000).cancelBeforeDelay = false := by
  refine ⟨by decide, by decide, by decide, by decide, by decide, by decide, by decide,
    by decide, by decide, by decide⟩

/-- C8: on a stop request during the inter-pass delay the run emits the
progress event "Stopping scraper..." and then *two* completion messages —
one from the loop exiting on the cleared flag, one from `stopScraping`'s
500 ms `setTimeout` callback, which calls `completeScraping` again without
any emitted-once guard.  The terminal completion event is therefore not
the last event of the run: a second completion event follows it. -/
theorem stopScraping_double_completion :
    countCompletions (stopDuringDelayEvents 0 (startState ⟨2000, 100⟩)) = 2 := by
  decide

theorem extract_eq_map (n sc : ℕ) (dom : List DomPost) :
    extractPostsFromDOM n sc dom = (dom.filter domValid).map (stampPost n sc) := by
  induction dom with
  | nil => rfl
  | cons d rest ih =>
    unfold extractPostsFromDOM at ih ⊢
    rw [List.filterMap_cons, List.filter_cons]
    by_cases hd : d.text = "" ∧ d.media = []
    · rw [show extractPostData n sc d = none from by rw [extractPostData, if_pos hd]]
      have hv : domValid d = false := by
        unfold domValid
        have h1 : d.text.length = 0 := by rw [hd.1]; rfl
        have h2 : d.media.length = 0 := by rw [hd.2]; rfl
        simp [h1, h2]
      rw [hv]
      simpa using ih
    · rw [show extractPostData n sc d = some (stampPost n sc d) from by
        rw [extractPostData, if_neg hd]]
      have hiv : isValidPostData (stampPost n sc d) = domValid d := rfl
      by_cases hv : domValid d = true
      · rw [List.filter_cons, hiv, hv]
        simp only [if_true, List.map_cons]
        rw [ih]
      · have hv2 : domValid d = false := by
          cases hdv : domValid d
          · rfl
          · exact absurd hdv hv
        rw [List.filter_cons, hiv, hv2]
        simpa using ih

theorem lookup_none_iff (m : List (String × Post)) (k : String) :
    m.lookup k = none ↔ k ∉ m.map Prod.fst := by
  induction m with
  | nil => simp [List.lookup]
  | cons e rest ih =>
    rcases e with ⟨k2, v⟩
    by_cases he : k = k2
    · subst he
      simp [List.lookup]
    · rw [List.lookup]
      rw [show (k == k2) = false from beq_eq_false_iff_ne.mpr he]
      simp only [List.map_cons, List.mem_cons]
      constructor
      · intro h hk
        rcases hk with hk | hk
        · exact he hk
        · exact (ih.mp h) hk
      · intro h
        exact ih.mpr fun hk => h (Or.inr hk)

theorem admitPosts_length_le (ps : List Post) (m : List (String × Post)) :
    m.length ≤ (admitPosts m ps).length := by
  induction ps generalizing m with
  | nil => exact le_refl _
  | cons p rest ih =>
    unfold admitPosts at ih ⊢
    rw [List.foldl_cons]
    refine le_trans ?_ (ih (admitOne m p))
    unfold admitOne
    split
    · simp
    · exact le_refl _

theorem admitPosts_stamped_keys (n1 sc1 n2 sc2 : ℕ) (ds : List DomPost) :
    ∀ (m1 m2 : List (String × Post)), m1.map Prod.fst = m2.map Prod.fst →
      (admitPosts m1 (ds.map (stampPost n1 sc1))).map Prod.fst =
        (admitPosts m2 (ds.map (stampPost n2 sc2))).map Prod.fst := by
  induction ds with
  | nil => intro m1 m2 h; exact h
  | cons d rest ih =>
    intro m1 m2 h
    rw [List.map_cons, List.map_cons]
    unfold admitPosts
    rw [List.foldl_cons, List.foldl_cons]
    refine ih _ _ ?_
    unfold admitOne
    have hid : (stampPost n1 sc1 d).id = (stampPost n2 sc2 d).id := rfl
    have hlk : m1.lookup (stampPost n1 sc1 d).id = none ↔
        m2.lookup (stampPost n2 sc2 d).id = none := by
      rw [lookup_none_iff, lookup_none_iff, h, hid]
    by_cases hc : (stampPost n1 sc1 d).id ≠ "" ∧ m1.lookup (stampPost n1 sc1 d).id = none
    · rw [if_pos hc, if_pos ⟨hid ▸ hc.1, hlk.mp hc.2⟩]
      simp only [List.map_append, List.map_cons, List.map_nil, h]
      rfl
    · rw [if_neg hc, if_neg (by
        intro h2
        exact hc ⟨hid ▸ h2.1, hlk.mpr h2.2⟩)]
      exact h

theorem scrape_length_eq (st1 st2 : ScrapeState) (dom : List DomPost)
    (h : st1.scrapedPosts = st2.scrapedPosts) :
    (scrapeCurrentPosts st1 dom).scrapedPosts.length =
      (scrapeCurrentPosts st2 dom).scrapedPosts.length := by
  unfold scrapeCurrentPosts
  have hk := admitPosts_stamped_keys st1.scrapedPosts.length st1.scrollCount
    st2.scrapedPosts.length st2.scrollCount (dom.filter domValid)
    st1.scrapedPosts st2.scrapedPosts (by rw [h])
  rw [extract_eq_map, extract_eq_map, h]
  have hk2 := h ▸ hk
  calc (admitPosts st2.scrapedPosts ((dom.filter domValid).map
          (stampPost st2.scrapedPosts.length st1.scrollCount))).length
      = ((admitPosts st2.scrapedPosts ((dom.filter domValid).map
          (stampPost st2.scrapedPosts.length st1.scrollCount))).map Prod.fst).length := by
        rw [List.length_map]
    _ = ((admitPosts st2.scrapedPosts ((dom.filter domValid).map
          (stampPost st2.scrapedPosts.length st2.scrollCount))).map Prod.fst).length := by
        rw [hk2]
    _ = (admitPosts st2.scrapedPosts ((dom.filter domValid).map
          (stampPost st2.scrapedPosts.length st2.scrollCount))).length := by
        rw [List.length_map]

theorem scrape_length_ge (st : ScrapeState) (dom : List DomPost) :
    st.scrapedPosts.length ≤ (scrapeCurrentPosts st dom).scrapedPosts.length := by
  unfold scrapeCurrentPosts
  exact admitPosts_length_le _ _

/-- C5 (amended): the scroll loop transitions to `Completing` after a pass
exactly when one of these holds: accepted-post count ≥ the configured
maximum; OR the pass admitted nothing and a 5-second silence window since
the first empty pass has elapsed; OR the pass admitted nothing and it is
the second consecutive empty pass (an *independent* trigger, not conjoined
with the 5-second window); OR a page-level error/rate-limit signal was
detected; OR the scroll action failed; OR a stop request was observed at
one of the cancellation checkpoints — and on no other condition. -/
theorem passStep_stops_iff (ls : LoopState) (e : PassEnv) :
    (∃ ls2 r, passStep ls e = .inr (ls2, r)) ↔ loopStopsCondition ls e := by
  unfold passStep loopStopsCondition
  by_cases hact : ls.st.isScrapingActive = true
  case neg =>
    have hact2 : ls.st.isScrapingActive = false := by
      cases h : ls.st.isScrapingActive
      · rfl
      · exact absurd h hact
    rw [if_pos (by rw [hact2]; exact Bool.false_ne_true)]
    exact iff_of_true ⟨_, _, rfl⟩ (Or.inl hact2)
  case pos =>
  rw [if_neg (not_not_intro hact)]
  by_cases hmax : ls.st.settings.maxPosts ≤ ls.st.scrapedPosts.length
  case pos =>
    rw [if_pos hmax]
    exact iff_of_true ⟨_, _, rfl⟩ (Or.inr (Or.inl hmax))
  case neg =>
  rw [if_neg hmax]
  by_cases hscr : e.scrollSuccess = true
  case neg =>
    have hscr2 : e.scrollSuccess = false := by
      cases h : e.scrollSuccess
      · rfl
      · exact absurd h hscr
    rw [if_pos (by rw [hscr2]; exact Bool.false_ne_true)]
    exact iff_of_true ⟨_, _, rfl⟩ (Or.inr (Or.inr (Or.inl hscr2)))
  case pos =>
  rw [if_neg (not_not_intro hscr)]
  dsimp only
  simp only [hact, Bool.true_and]
  by_cases hcds : e.cancelDuringScroll = true
  case pos =>
    rw [hcds]
    rw [if_pos (by simp)]
    exact iff_of_true ⟨_, _, rfl⟩ (Or.inr (Or.inr (Or.inr (Or.inl rfl))))
  case neg =>
  have hcds2 : e.cancelDuringScroll = false := by
    cases h : e.cancelDuringScroll
    · rfl
    · exact absurd h hcds
  rw [hcds2]
  rw [if_neg (by simp)]
  simp only [Bool.not_false, Bool.true_and]
  by_cases hcdw : e.cancelDuringWait = true
  case pos =>
    rw [hcdw]
    rw [if_pos (by simp)]
    exact iff_of_true ⟨_, _, rfl⟩
      (Or.inr (Or.inr (Or.inr (Or.inr (Or.inl rfl)))))
  case neg =>
  have hcdw2 : e.cancelDuringWait = false := by
    cases h : e.cancelDuringWait
    · rfl
    · exact absurd h hcdw
  rw [hcdw2]
  rw [if_neg (by simp)]
  have hlen : (scrapeCurrentPosts ⟨!false, ls.st.scrapedPosts, ls.st.scrollCount + 1,
      ls.st.settings, if e.newContent = true then 0 else ls.st.noNewContentCount + 1⟩
      e.dom).scrapedPosts.length = (scrapeCurrentPosts ls.st e.dom).scrapedPosts.length :=
    scrape_length_eq _ _ _ rfl
  have hset : (scrapeCurrentPosts ⟨!false, ls.st.scrapedPosts, ls.st.scrollCount + 1,
      ls.st.settings, if e.newContent = true then 0 else ls.st.noNewContentCount + 1⟩
      e.dom).settings = ls.st.settings := rfl
  simp only [ge_iff_le, hset, hlen]
  by_cases hmax2 : ls.st.settings.maxPosts ≤ (scrapeCurrentPosts ls.st e.dom).scrapedPosts.length
  case pos =>
    rw [if_pos hmax2]
    exact iff_of_true ⟨_, _, rfl⟩
      (Or.inr (Or.inr (Or.inr (Or.inr (Or.inr (Or.inl hmax2))))))
  case neg =>
  rw [if_neg hmax2]
  by_cases hempty : (scrapeCurrentPosts ls.st e.dom).scrapedPosts.length
      = ls.st.scrapedPosts.length
  case pos =>
    rw [if_pos (by omega)]
    cases hstart : ls.noNewPostsStartTime with
    | none =>
      dsimp only
      unfold stepRest
      dsimp only
      by_cases hc2 : 1 ≤ ls.consecutiveEmptyScrolls
      case pos =>
        rw [if_pos (by omega)]
        exact iff_of_true ⟨_, _, rfl⟩
          (Or.inr (Or.inr (Or.inr (Or.inr (Or.inr (Or.inr (Or.inr (Or.inl ⟨hempty, hc2⟩))))))))
      case neg =>
      rw [if_neg (by omega)]
      by_cases hrl : e.rateLimited = true
      case pos =>
        rw [if_pos hrl]
        exact iff_of_true ⟨_, _, rfl⟩
          (Or.inr (Or.inr (Or.inr (Or.inr (Or.inr (Or.inr (Or.inr (Or.inr (Or.inl hrl)))))))))
      case neg =>
      rw [if_neg hrl]
      by_cases hcbd : e.cancelBeforeDelay = true
      case pos =>
        rw [if_pos hcbd]
        exact iff_of_true ⟨_, _, rfl⟩
          (Or.inr (Or.inr (Or.inr (Or.inr (Or.inr (Or.inr (Or.inr (Or.inr (Or.inr hcbd)))))))))
      case neg =>
      rw [if_neg hcbd]
      refine iff_of_false ?_ ?_
      · rintro ⟨ls2, r, h⟩
        exact absurd h (by simp)
      · rintro (h | h | h | h | h | h | ⟨he, t0, ht, h5⟩ | ⟨he, hc⟩ | h | h)
        · simp [hact] at h
        · exact hmax h
        · simp [hscr] at h
        · simp [hcds2] at h
        · simp [hcdw2] at h
        · exact hmax2 h
        · cases ht
        · exact hc2 hc
        · exact hrl h
        · exact hcbd h
    | some t0 =>
      dsimp only
      by_cases h5 : 5000 ≤ e.now - t0
      case pos =>
        rw [if_pos h5]
        exact iff_of_true ⟨_, _, rfl⟩
          (Or.inr (Or.inr (Or.inr (Or.inr (Or.inr (Or.inr (Or.inl ⟨hempty, t0, rfl, h5⟩)))))))
      case neg =>
      rw [if_neg h5]
      unfold stepRest
      dsimp only
      by_cases hc2 : 1 ≤ ls.consecutiveEmptyScrolls
      case pos =>
        rw [if_pos (by omega)]
        exact iff_of_true ⟨_, _, rfl⟩
          (Or.inr (Or.inr (Or.inr (Or.inr (Or.inr (Or.inr (Or.inr (Or.inl ⟨hempty, hc2⟩))))))))
      case neg =>
      rw [if_neg (by omega)]
      by_cases hrl : e.rateLimited = true
      case pos =>
        rw [if_pos hrl]
        exact iff_of_true ⟨_, _, rfl⟩
          (Or.inr (Or.inr (Or.inr (Or.inr (Or.inr (Or.inr (Or.inr (Or.inr (Or.inl hrl)))))))))
      case neg =>
      rw [if_neg hrl]
      by_cases hcbd : e.cancelBeforeDelay = true
      case pos =>
        rw [if_pos hcbd]
        exact iff_of_true ⟨_, _, rfl⟩
          (Or.inr (Or.inr (Or.inr (Or.inr (Or.inr (Or.inr (Or.inr (Or.inr (Or.inr hcbd)))))))))
      case neg =>
      rw [if_neg hcbd]
      refine iff_of_false ?_ ?_
      · rintro ⟨ls2, r, h⟩
        exact absurd h (by simp)
      · rintro (h | h | h | h | h | h | ⟨he, t1, ht, h5b⟩ | ⟨he, hc⟩ | h | h)
        · simp [hact] at h
        · exact hmax h
        · simp [hscr] at h
        · simp [hcds2] at h
        · simp [hcdw2] at h
        · exact hmax2 h
        · injection ht with ht2
          subst ht2
          exact h5 h5b
        · exact hc2 hc
        · exact hrl h
        · exact hcbd h
  case neg =>
  rw [if_neg (by
    have := scrape_length_ge ls.st e.dom
    omega)]
  unfold stepRest
  dsimp only
  rw [if_neg (by omega)]
  by_cases hrl : e.rateLimited = true
  case pos =>
    rw [if_pos hrl]
    exact iff_of_true ⟨_, _, rfl⟩
      (Or.inr (Or.inr (Or.inr (Or.inr (Or.inr (Or.inr (Or.inr (Or.inr (Or.inl hrl)))))))))
  case neg =>
  rw [if_neg hrl]
  by_cases hcbd : e.cancelBeforeDelay = true
  case pos =>
    rw [if_pos hcbd]
    exact iff_of_true ⟨_, _, rfl⟩
      (Or.inr (Or.inr (Or.inr (Or.inr (Or.inr (Or.inr (Or.inr (Or.inr (Or.inr hcbd)))))))))
  case neg =>
  rw [if_neg hcbd]
  refine iff_of_false ?_ ?_
  · rintro ⟨ls2, r, h⟩
    exact absurd h (by simp)
  · rintro (h | h | h | h | h | h | ⟨he, t0, ht, h5⟩ | ⟨he, hc⟩ | h | h)
    · simp [hact] at h
    · exact hmax h
    · simp [hscr] at h
    · simp [hcds2] at h
    · simp [hcdw2] at h
    · exact hmax2 h
    · exact hempty he
    · exact hempty he
    · exact hrl h
    · exact hcbd h

theorem admitPosts_ordersInv (o L0 : ℕ) (ho : o = L0 + 1) :
    ∀ ps : List Post, (∀ p ∈ ps, p.order = o) →
    ∀ m, List.Pairwise (fun a b => a.2.order ≤ b.2.order) m →
      (∀ p ∈ m, p.2.order ≤ m.length) →
      (∀ p ∈ m, p.2.order ≤ L0 ∨ p.2.order = o) →
      L0 ≤ m.length →
      List.Pairwise (fun a b => a.2.order ≤ b.2.order) (admitPosts m ps) ∧
      (∀ p ∈ admitPosts m ps, p.2.order ≤ (admitPosts m ps).length) ∧
      (∀ p ∈ admitPosts m ps, p.2.order ≤ L0 ∨ p.2.order = o) ∧
      L0 ≤ (admitPosts m ps).length := by
  intro ps
  induction ps with
  | nil =>
    intro _ m h1 h2 h3 h4
    exact ⟨h1, h2, h3, h4⟩
  | cons p rest ih =>
    intro hps m h1 h2 h3 h4
    have hpo : p.order = o := hps p (List.mem_cons_self _ _)
    have hrest : ∀ q ∈ rest, q.order = o := fun q hq => hps q (List.mem_cons_of_mem _ hq)
    rw [show admitPosts m (p :: rest) = admitPosts (admitOne m p) rest from rfl]
    unfold admitOne
    split
    · refine ih hrest (m ++ [(p.id, p)]) ?_ ?_ ?_ ?_
      · rw [List.pairwise_append]
        refine ⟨h1, List.pairwise_singleton _ _, ?_⟩
        intro a ha b hb
        rw [List.mem_singleton] at hb
        subst hb
        dsimp only
        rw [hpo, ho]
        rcases h3 a ha with h | h
        · omega
        · rw [h, ho]
      · intro q hq
        rw [List.length_append]
        rcases List.mem_append.mp hq with hq | hq
        · have := h2 q hq
          omega
        · rw [List.mem_singleton] at hq
          subst hq
          dsimp only
          rw [hpo, ho]
          simp only [List.length_singleton]
          omega
      · intro q hq
        rcases List.mem_append.mp hq with hq | hq
        · exact h3 q hq
        · rw [List.mem_singleton] at hq
          subst hq
          exact Or.inr hpo
      · rw [List.length_append]
        omega
    · exact ih hrest m h1 h2 h3 h4

theorem ordersInv_scrape (m : List (String × Post)) (sc : ℕ) (dom : List DomPost)
    (h : OrdersInv m) :
    OrdersInv (admitPosts m (extractPostsFromDOM m.length sc dom)) := by
  have horders : ∀ p ∈ extractPostsFromDOM m.length sc dom, p.order = m.length + 1 := by
    intro p hp
    rw [extract_eq_map] at hp
    rcases List.mem_map.mp hp with ⟨d, _, rfl⟩
    rfl
  have hres := admitPosts_ordersInv (m.length + 1) m.length rfl
    (extractPostsFromDOM m.length sc dom) horders m h.1 h.2
    (fun p hp => Or.inl (h.2 p hp)) (le_refl _)
  exact ⟨hres.1, hres.2.1⟩

theorem scrape_ordersInv (st : ScrapeState) (dom : List DomPost)
    (h : OrdersInv st.scrapedPosts) :
    OrdersInv (scrapeCurrentPosts st dom).scrapedPosts := by
  unfold scrapeCurrentPosts
  exact ordersInv_scrape _ _ _ h

theorem passStep_ordersInv (ls : LoopState) (e : PassEnv)
    (hInv : OrdersInv ls.st.scrapedPosts) :
    ∀ ls2, (passStep ls e = .inl ls2 ∨ ∃ r, passStep ls e = .inr (ls2, r)) →
      OrdersInv ls2.st.scrapedPosts := by
  intro ls2 h
  unfold passStep stepRest at h
  dsimp only at h
  generalize hS : scrapeCurrentPosts
    ⟨ls.st.isScrapingActive && !e.cancelDuringScroll && !e.cancelDuringWait,
     ls.st.scrapedPosts, ls.st.scrollCount + 1, ls.st.settings,
     if e.newContent = true then 0 else ls.st.noNewContentCount + 1⟩ e.dom = S at h
  have hSinv : OrdersInv S.scrapedPosts := by
    rw [← hS]
    exact scrape_ordersInv _ e.dom hInv
  have hinl : ∀ (X : LoopState),
      ((Sum.inl X : LoopState ⊕ (LoopState × StopReason)) = .inl ls2 ∨
        ∃ r, (Sum.inl X : LoopState ⊕ (LoopState × StopReason)) = .inr (ls2, r)) →
      ls2 = X := by
    intro X hX
    rcases hX with hX | ⟨r, hX⟩
    · injection hX with h2
      exact h2.symm
    · exact Sum.noConfusion hX
  have hinr : ∀ (X : LoopState) (rX : StopReason),
      ((Sum.inr (X, rX) : LoopState ⊕ (LoopState × StopReason)) = .inl ls2 ∨
        ∃ r, (Sum.inr (X, rX) : LoopState ⊕ (LoopState × StopReason)) = .inr (ls2, r)) →
      ls2 = X := by
    intro X rX hX
    rcases hX with hX | ⟨r, hX⟩
    · exact Sum.noConfusion hX
    · injection hX with h2
      injection h2 with h3 h4
      exact h3.symm
  by_cases c1 : ¬ls.st.isScrapingActive = true
  · rw [if_pos c1] at h
    obtain rfl := hinr _ _ h
    exact hInv
  rw [if_neg c1] at h
  by_cases c2 : ls.st.scrapedPosts.length ≥ ls.st.settings.maxPosts
  · rw [if_pos c2] at h
    obtain rfl := hinr _ _ h
    exact hInv
  rw [if_neg c2] at h
  by_cases c3 : ¬e.scrollSuccess = true
  · rw [if_pos c3] at h
    obtain rfl := hinr _ _ h
    exact hInv
  rw [if_neg c3] at h
  by_cases c4 : ¬(ls.st.isScrapingActive && !e.cancelDuringScroll) = true
  · rw [if_pos c4] at h
    obtain rfl := hinr _ _ h
    exact hInv
  rw [if_neg c4] at h
  by_cases c5 : ¬(ls.st.isScrapingActive && !e.cancelDuringScroll && !e.cancelDuringWait) = true
  · rw [if_pos c5] at h
    obtain rfl := hinr _ _ h
    exact hInv
  rw [if_neg c5] at h
  by_cases c6 : S.scrapedPosts.length ≥ S.settings.maxPosts
  · rw [if_pos c6] at h
    obtain rfl := hinr _ _ h
    exact hSinv
  rw [if_neg c6] at h
  by_cases c7 : S.scrapedPosts.length - ls.st.scrapedPosts.length = 0
  · rw [if_pos c7] at h
    rcases hstart : ls.noNewPostsStartTime with _ | t0
    · rw [hstart] at h
      dsimp only at h
      by_cases c8 : ls.consecutiveEmptyScrolls + 1 ≥ 2
      · rw [if_pos c8] at h
        obtain rfl := hinr _ _ h
        exact hSinv
      rw [if_neg c8] at h
      by_cases c9 : e.rateLimited = true
      · rw [if_pos c9] at h
        obtain rfl := hinr _ _ h
        exact hSinv
      rw [if_neg c9] at h
      by_cases c10 : e.cancelBeforeDelay = true
      · rw [if_pos c10] at h
        obtain rfl := hinr _ _ h
        exact hSinv
      rw [if_neg c10] at h
      obtain rfl := hinl _ h
      exact hSinv
    · rw [hstart] at h
      dsimp only at h
      by_cases c7b : e.now - t0 ≥ 5000
      · rw [if_pos c7b] at h
        obtain rfl := hinr _ _ h
        exact hSinv
      rw [if_neg c7b] at h
      by_cases c8 : ls.consecutiveEmptyScrolls + 1 ≥ 2
      · rw [if_pos c8] at h
        obtain rfl := hinr _ _ h
        exact hSinv
      rw [if_neg c8] at h
      by_cases c9 : e.rateLimited = true
      · rw [if_pos c9] at h
        obtain rfl := hinr _ _ h
        exact hSinv
      rw [if_neg c9] at h
      by_cases c10 : e.cancelBeforeDelay = true
      · rw [if_pos c10] at h
        obtain rfl := hinr _ _ h
        exact hSinv
      rw [if_neg c10] at h
      obtain rfl := hinl _ h
      exact hSinv
  · rw [if_neg c7] at h
    rw [if_neg (by omega)] at h
    by_cases c9 : e.rateLimited = true
    · rw [if_pos c9] at h
      obtain rfl := hinr _ _ h
      exact hSinv
    rw [if_neg c9] at h
    by_cases c10 : e.cancelBeforeDelay = true
    · rw [if_pos c10] at h
      obtain rfl := hinr _ _ h
      exact hSinv
    rw [if_neg c10] at h
    obtain rfl := hinl _ h
    exact hSinv

theorem runLoop_ordersInv : ∀ (script : List PassEnv) (ls : LoopState),
    OrdersInv ls.st.scrapedPosts →
    OrdersInv (runLoop ls script).1.st.scrapedPosts := by
  intro script
  induction script with
  | nil =>
    intro ls h
    exact h
  | cons e rest ih =>
    intro ls h
    rw [runLoop]
    rcases hstep : passStep ls e with ls2 | lr
    · exact ih ls2 (passStep_ordersInv ls e h ls2 (Or.inl hstep))
    · exact passStep_ordersInv ls e h lr.1 (Or.inr ⟨lr.2, by rw [hstep]⟩)

/-- C3 (amended): the `order` stamp (`sequenceIndex`) is assigned at
extraction as (accumulated count at the pass start) + 1, so every record
extracted in one pass carries the same value — admitted records of a pass
share their `sequenceIndex` — and across a whole run the `order` values of
the accumulated map are *nondecreasing* (not strictly increasing) in
admission order. -/
theorem order_amended :
    (∀ n sc dom, ∀ p ∈ extractPostsFromDOM n sc dom, p.order = n + 1) ∧
    (∀ settings initialDom script,
      List.Pairwise (fun a b => a.2.order ≤ b.2.order)
        ((runScraper settings initialDom script).1.st.scrapedPosts)) := by
  constructor
  · intro n sc dom p hp
    rw [extract_eq_map] at hp
    rcases List.mem_map.mp hp with ⟨d, _, rfl⟩
    rfl
  · intro settings initialDom script
    have hstart : OrdersInv (startState settings).scrapedPosts := by
      exact ⟨List.Pairwise.nil, by intro p hp; cases hp⟩
    have hinit : OrdersInv (scrapeCurrentPosts (startState settings) initialDom).scrapedPosts :=
      scrape_ordersInv _ _ hstart
    exact (runLoop_ordersInv script _ hinit).1

theorem order_amended_witness : cexExtractedPost.order = 1 :=
  order_amended.1 0 0 [mkDomPost "d1" "text one" "au" "2h"] cexExtractedPost (by decide)

/-- C9: if no candidate post node is ever found (empty feed: the initial
extraction and every pass see zero records) and nothing else goes wrong
(scroll works, no rate-limit signal, no stop request), the run terminates
by itself within two passes and `completeScraping` emits a *success*
terminal event whose post list is empty and whose statistics are all zero
(`dateRange` is the source's `null`), rather than an error. -/
theorem emptyFeed_completes (settings : ScraperSettings) (now : ℤ)
    (e1 e2 : PassEnv) (rest : List PassEnv)
    (hmax : 0 < settings.maxPosts)
    (h1 : e1.dom = [] ∧ e1.scrollSuccess = true ∧ e1.rateLimited = false ∧
      e1.cancelDuringScroll = false ∧ e1.cancelDuringWait = false ∧
      e1.cancelBeforeDelay = false ∧ e1.cancelDuringDelay = false)
    (h2 : e2.dom = [] ∧ e2.scrollSuccess = true ∧ e2.rateLimited = false ∧
      e2.cancelDuringScroll = false ∧ e2.cancelDuringWait = false ∧
      e2.cancelBeforeDelay = false) :
    ∃ (ls : LoopState) (reason : StopReason),
      runScraper settings [] (e1 :: e2 :: rest) = (ls, some reason) ∧
      ls.st.scrapedPosts = [] ∧
      (completeScraping now ls.st).2 = some ⟨[], ls.st.scrollCount,
        ⟨0, ls.st.scrollCount, 0, 0, 0, 0, 0, 0, [], none⟩⟩ := by
  obtain ⟨h1dom, h1scroll, h1rate, h1cds, h1cdw, h1cbd, h1cdd⟩ := h1
  obtain ⟨h2dom, h2scroll, h2rate, h2cds, h2cdw, h2cbd⟩ := h2
  have hstep1 : passStep ⟨⟨true, [], 0, settings, 0⟩, 0, none⟩ e1 =
      .inl ⟨⟨true, [], 1, settings, if e1.newContent = true then 0 else 1⟩, 1,
        some e1.now⟩ := by
    unfold passStep stepRest
    dsimp only
    simp only [h1dom, h1scroll, h1cds, h1cdw, h1cbd, h1cdd, h1rate]
    rw [show scrapeCurrentPosts ⟨true && !false && !false, [], 0 + 1, settings,
      if e1.newContent = true then 0 else 0 + 1⟩ [] = ⟨true && !false && !false, [], 0 + 1,
      settings, if e1.newContent = true then 0 else 0 + 1⟩ from rfl]
    simp [Nat.pos_iff_ne_zero.mp hmax]
  have hstep2 : ∃ ls2 r, passStep ⟨⟨true, [], 1, settings,
      if e1.newContent = true then 0 else 1⟩, 1, some e1.now⟩ e2 = .inr (ls2, r) ∧
      ls2.st.scrapedPosts = [] := by
    unfold passStep stepRest
    dsimp only
    simp only [h2dom, h2scroll, h2cds, h2cdw, h2cbd, h2rate]
    rw [show scrapeCurrentPosts ⟨true && !false && !false, [], 1 + 1, settings,
      if e2.newContent = true then 0 else (if e1.newContent = true then 0 else 1) + 1⟩ [] =
      ⟨true && !false && !false, [], 1 + 1, settings,
      if e2.newContent = true then 0 else (if e1.newContent = true then 0 else 1) + 1⟩
      from rfl]
    by_cases h5 : e2.now - e1.now ≥ 5000
    · simp [Nat.pos_iff_ne_zero.mp hmax, h5]
    · simp [Nat.pos_iff_ne_zero.mp hmax, h5]
  obtain ⟨ls2, r, hst2, hpost⟩ := hstep2
  have hcomplete : (completeScraping now ls2.st).2 = some ⟨[], ls2.st.scrollCount,
      ⟨0, ls2.st.scrollCount, 0, 0, 0, 0, 0, 0, [], none⟩⟩ := by
    unfold completeScraping
    rw [hpost]
    rfl
  refine ⟨ls2, r, ?_, hpost, hcomplete⟩
  show runLoop ⟨scrapeCurrentPosts (startState settings) [], 0, none⟩
    (e1 :: e2 :: rest) = (ls2, some r)
  rw [show (⟨scrapeCurrentPosts (startState settings) [], 0, none⟩ : LoopState) =
    ⟨⟨true, [], 0, settings, 0⟩, 0, none⟩ from rfl]
  rw [runLoop, hstep1]
  dsimp only
  rw [runLoop, hst2]

theorem emptyFeed_completes_witness :
    ∃ (ls : LoopState) (reason : StopReason),
      runScraper ⟨2000, 100⟩ [] [benignEmptyEnv 0, benignEmptyEnv 1000] = (ls, some reason) ∧
      ls.st.scrapedPosts = [] ∧
      (completeScraping 0 ls.st).2 = some ⟨[], ls.st.scrollCount,
        ⟨0, ls.st.scrollCount, 0, 0, 0, 0, 0, 0, [], none⟩⟩ :=
  emptyFeed_completes ⟨2000, 100⟩ 0 (benignEmptyEnv 0) (benignEmptyEnv 1000) []
    (by decide) (by decide) (by decide)
